import Mathlib

/-!
Verification of the vocabulary store and review-scheduling engine of the
Raycast-Easydict extension.

The development shallowly embeds the TypeScript sources:

* `src/vocabulary/wordbook.ts` (SQLite flavour) — the `VocabularyManager`
  business layer: interval ladder, review state machine
  (`applyReviewResult`), default progress.
* `src/vocabulary/database.ts` — three historical transports appear in the
  repository: a shell-`sqlite3` transport without a progress table, the
  current shell-`sqlite3` transport with a `vocabulary_progress` table, a
  delete trigger and `PRAGMA foreign_keys = ON`, and a `better-sqlite3`
  transport.  The current shell transport is embedded as operations on a
  `SqliteStore`; the `better-sqlite3` row-count behaviour of
  `removeVocabulary`/`addVocabulary` is embedded separately.
* `src/vocabulary/wordbook.ts` (line-delimited file flavour) — the file
  transport: case-insensitive duplicate check and removal, and the
  line-by-line JSON parsing of `getVocabularyList`.

Machine integers are modelled as `Int` (all values involved are integral
and far below 2^53, so JavaScript number arithmetic is exact integer
arithmetic on them).  SQL result sets are lists of rows; `ORDER BY` is
modelled with `List.insertionSort`, which agrees with any SQL sort up to
the order of rows tied on every sort key.  Fallible lookups return
`Option`.
-/

namespace Easydict

/-- REVIEW_INTERVALS from wordbook.ts: fixed review interval ladder in
milliseconds, indexed by proficiency. -/
def REVIEW_INTERVALS : List Int :=
  [5 * 60 * 1000,
   12 * 60 * 60 * 1000,
   24 * 60 * 60 * 1000,
   3 * 24 * 60 * 60 * 1000,
   7 * 24 * 60 * 60 * 1000,
   30 * 24 * 60 * 60 * 1000]

/-- MAX_PROFICIENCY = REVIEW_INTERVALS.length - 1 (wordbook.ts). -/
def MAX_PROFICIENCY : Int := (REVIEW_INTERVALS.length : Int) - 1

/-- Interface VocabularyReviewProgress from wordbook.ts.  Optional fields
are `Option Int` (absent = SQL NULL / `undefined`). -/
structure VocabularyReviewProgress where
  word : String
  proficiency : Int
  reviewCount : Int
  successCount : Int
  failCount : Int
  lastReviewedAt : Option Int := none
  nextReviewAt : Option Int := none
deriving Repr, DecidableEq

/-- getDefaultProgress from wordbook.ts. -/
def getDefaultProgress (word : String) : VocabularyReviewProgress :=
  { word := word
    proficiency := 0
    reviewCount := 0
    successCount := 0
    failCount := 0 }

/-- Type ReviewResult from wordbook.ts. -/
inductive ReviewResult where
  | remember
  | hard
  | forget
deriving Repr, DecidableEq

/-- JavaScript array indexing `REVIEW_INTERVALS[i]`: `none` models the
out-of-range `undefined` (which would poison the arithmetic with NaN). -/
def ladderAt (i : Int) : Option Int :=
  if 0 ≤ i then REVIEW_INTERVALS.get? i.toNat else none

/-- The pure core of VocabularyManager.applyReviewResult (wordbook.ts
lines 163-194): maps the current progress, the review result and the
current time to the updated progress.  `none` models the NaN case where
the ladder index would be out of range (unreachable for states with
non-negative proficiency). -/
def applyReviewResult (progress : VocabularyReviewProgress)
    (result : ReviewResult) (now : Int) : Option VocabularyReviewProgress :=
  let proficiency : Int :=
    match result with
    | .remember => min (progress.proficiency + 1) MAX_PROFICIENCY
    | .hard => min (progress.proficiency + 1) MAX_PROFICIENCY
    | .forget => max (progress.proficiency - 1) 0
  let intervalIndex : Int :=
    if result = .forget then 0 else min proficiency MAX_PROFICIENCY
  (ladderAt intervalIndex).map fun interval =>
    { word := progress.word
      proficiency := proficiency
      reviewCount := progress.reviewCount + 1
      successCount := progress.successCount + (if result ≠ .forget then 1 else 0)
      failCount := progress.failCount + (if result = .forget then 1 else 0)
      lastReviewedAt := some now
      nextReviewAt := some (now + interval) }

/-- Modelled from the spec (section 4.3): the interval ladder written out
from the spec's words `[5 min, 12 h, 1 day, 3 days, 7 days, 30 days]`, in
milliseconds, with entry lookup by index. -/
def specLadderEntry (i : Int) : Int :=
  (([5 * 60 * 1000,
     12 * 60 * 60 * 1000,
     24 * 60 * 60 * 1000,
     3 * 24 * 60 * 60 * 1000,
     7 * 24 * 60 * 60 * 1000,
     30 * 24 * 60 * 60 * 1000] : List Int).get? i.toNat).getD 0

/-- Modelled from the spec (section 4.3): the transition rule for the new
proficiency — plus one capped at 5 for `remember` and for `hard`, minus
one floored at 0 for `forget`. -/
def specNextProficiency (p : Int) : ReviewResult → Int
  | .remember => min (p + 1) 5
  | .hard => min (p + 1) 5
  | .forget => max (p - 1) 0

/-- Modelled from the spec (section 4.3): the interval index is 0 for
`forget` and otherwise the new proficiency. -/
def specIntervalIndex (newProficiency : Int) : ReviewResult → Int
  | .forget => 0
  | .remember => newProficiency
  | .hard => newProficiency

/-- Sequential application of review results, each with its own review
time (state after a whole review session). -/
def applyReviewSeq (progress : VocabularyReviewProgress) :
    List (ReviewResult × Int) → Option VocabularyReviewProgress
  | [] => some progress
  | (result, now) :: rest =>
      (applyReviewResult progress result now).bind fun q => applyReviewSeq q rest

/-- The state's `nextReviewAt`, when present, is the review time plus a
ladder entry picked by the spec's rule: entry 0 (after `forget`) or the
entry at the state's own proficiency (after `remember`/`hard`). -/
def nextReviewDerived (q : VocabularyReviewProgress) : Prop :=
  ∀ t ∈ q.nextReviewAt, ∃ last ∈ q.lastReviewedAt,
    t = last + specLadderEntry 0 ∨ t = last + specLadderEntry q.proficiency

/-- A row of the `vocabulary` table (database.ts schema): optional TEXT
columns are `Option String`, epoch-millisecond columns are `Int`. -/
structure VocabularyRow where
  word : String
  translation : Option String := none
  phonetic : Option String := none
  fromLanguage : Option String := none
  toLanguage : Option String := none
  note : Option String := none
  createdAt : Int
  updatedAt : Int
deriving Repr, DecidableEq

/-- The argument of addVocabulary: a VocabularyItem without its
timestamp. -/
structure VocabularyInput where
  word : String
  translation : Option String := none
  phonetic : Option String := none
  fromLanguage : Option String := none
  toLanguage : Option String := none
  note : Option String := none
deriving Repr, DecidableEq

/-- The state of the SQLite database of the current shell transport: the
`vocabulary` table and the `vocabulary_progress` table, as row lists. -/
structure SqliteStore where
  vocabulary : List VocabularyRow
  progress : List VocabularyReviewProgress
deriving Repr, DecidableEq

/-- The freshly initialised database: both tables empty. -/
def emptyStore : SqliteStore := { vocabulary := [], progress := [] }

/-- DatabaseManager.isVocabularyExists: SELECT COUNT(*) WHERE word = w
(exact, case-sensitive BINARY comparison) compared against 0. -/
def isVocabularyExists (s : SqliteStore) (word : String) : Bool :=
  s.vocabulary.any fun v => decide (v.word = word)

/-- JavaScript truthiness of an optional string (database.ts builds NULL
for a missing or empty optional column). -/
def jsTruthyStr (x : Option String) : Option String :=
  match x with
  | some t => if t = "" then none else some t
  | none => none

/-- DatabaseManager.addVocabulary: INSERT OR REPLACE keyed on the UNIQUE
`word` column, with created_at = updated_at = now.  The REPLACE branch
deletes any row with the exact same word first (the delete trigger does
not fire on that path: recursive_triggers is off by default, and through
VocabularyManager.addVocabulary the branch is unreachable anyway because
the exact word was checked first). -/
def dbAddVocabulary (s : SqliteStore) (item : VocabularyInput) (now : Int) :
    SqliteStore :=
  { s with vocabulary :=
      (s.vocabulary.filter fun v => decide (v.word ≠ item.word)) ++
        [{ word := item.word
           translation := jsTruthyStr item.translation
           phonetic := jsTruthyStr item.phonetic
           fromLanguage := jsTruthyStr item.fromLanguage
           toLanguage := jsTruthyStr item.toLanguage
           note := jsTruthyStr item.note
           createdAt := now
           updatedAt := now }] }

/-- VocabularyManager.addVocabulary (wordbook.ts lines 82-90): check
existence first, return false without touching storage on a hit, insert
otherwise. -/
def addVocabulary (s : SqliteStore) (item : VocabularyInput) (now : Int) :
    Bool × SqliteStore :=
  if isVocabularyExists s item.word then (false, s)
  else (true, dbAddVocabulary s item now)

/-- DatabaseManager.removeVocabulary (current shell transport): DELETE
FROM vocabulary WHERE word = w (exact match); the trg_vocabulary_delete
trigger and the ON DELETE CASCADE foreign key delete the progress row of
each deleted vocabulary row; the boolean reports only that the statement
executed. -/
def removeVocabulary (s : SqliteStore) (word : String) : Bool × SqliteStore :=
  let deleted := s.vocabulary.filter fun v => decide (v.word = word)
  (true,
   { vocabulary := s.vocabulary.filter fun v => decide (v.word ≠ word)
     progress := s.progress.filter fun p =>
       deleted.all fun v => decide (v.word ≠ p.word) })

/-- DatabaseManager.removeVocabulary of the better-sqlite3 transport
(database.ts lines 801-813): the prepared DELETE reports the number of
affected rows and the method returns `result.changes > 0`. -/
def removeVocabularyBetterSqlite3 (rows : List VocabularyRow) (word : String) :
    Bool × List VocabularyRow :=
  let changes := (rows.filter fun v => decide (v.word = word)).length
  (decide (changes > 0), rows.filter fun v => decide (v.word ≠ word))

/-- DatabaseManager.clearAllVocabulary (current shell transport): DELETE
FROM vocabulary; the per-row delete trigger / cascade clears the progress
rows of the deleted vocabulary rows. -/
def clearAllVocabulary (s : SqliteStore) : Bool × SqliteStore :=
  (true,
   { vocabulary := []
     progress := s.progress.filter fun p =>
       s.vocabulary.all fun v => decide (v.word ≠ p.word) })

/-- DatabaseManager.getReviewProgress: SELECT ... WHERE word = w LIMIT 1
(absence is `none`). -/
def getReviewProgress (s : SqliteStore) (word : String) :
    Option VocabularyReviewProgress :=
  s.progress.find? fun p => decide (p.word = word)

/-- DatabaseManager.upsertReviewProgress: INSERT ... ON CONFLICT(word) DO
UPDATE.  With PRAGMA foreign_keys = ON, inserting a progress row whose
word has no vocabulary row violates the foreign key: the statement fails
and the method returns false without mutating anything. -/
def upsertReviewProgress (s : SqliteStore)
    (progress : VocabularyReviewProgress) : Bool × SqliteStore :=
  if s.vocabulary.any fun v => decide (v.word = progress.word) then
    (true, { s with progress :=
      (s.progress.filter fun p => decide (p.word ≠ progress.word)) ++ [progress] })
  else (false, s)

/-- DatabaseManager.clearReviewProgress: delete one word's progress row,
or all progress rows when no word is given. -/
def clearReviewProgress (s : SqliteStore) (word : Option String) :
    Bool × SqliteStore :=
  match word with
  | some w =>
      (true, { s with progress := s.progress.filter fun p => decide (p.word ≠ w) })
  | none => (true, { s with progress := [] })

/-- VocabularyManager.applyReviewResult at store level: fetch the progress
(or the default), compute the next state with the pure scheduler, persist
it with upsertReviewProgress, and return the updated progress on
success. -/
def applyReviewResultOnStore (s : SqliteStore) (word : String)
    (result : ReviewResult) (now : Int) :
    Option VocabularyReviewProgress × SqliteStore :=
  let progress := (getReviewProgress s word).getD (getDefaultProgress word)
  match applyReviewResult progress result now with
  | none => (none, s)
  | some updated =>
      let res := upsertReviewProgress s updated
      (if res.1 then some updated else none, res.2)

/-- The LEFT JOIN of one vocabulary row with its progress row (progress
word is a primary key, so at most one matching row). -/
def joinedProgress (s : SqliteStore) (v : VocabularyRow) :
    Option VocabularyReviewProgress :=
  s.progress.find? fun p => decide (p.word = v.word)

/-- The due filter of getReviewQueue and getReviewStatistics:
next_review_at IS NULL OR next_review_at <= now (on the joined row). -/
def isDueRow (vp : VocabularyRow × Option VocabularyReviewProgress)
    (now : Int) : Bool :=
  match vp.2 with
  | some p =>
      match p.nextReviewAt with
      | some t => decide (t ≤ now)
      | none => true
  | none => true

/-- The first sort key of getReviewQueue:
COALESCE(p.next_review_at, v.created_at). -/
def queueKey (vp : VocabularyRow × Option VocabularyReviewProgress) : Int :=
  match vp.2 with
  | some p => p.nextReviewAt.getD vp.1.createdAt
  | none => vp.1.createdAt

/-- The ORDER BY relation of getReviewQueue: ascending by the coalesced
review time, ties broken by created_at descending. -/
def queueLe (a b : VocabularyRow × Option VocabularyReviewProgress) : Prop :=
  queueKey a < queueKey b ∨ (queueKey a = queueKey b ∧ b.1.createdAt ≤ a.1.createdAt)

instance : DecidableRel queueLe := fun a b =>
  inferInstanceAs (Decidable (_ ∨ _ ∧ _))

instance : IsTotal (VocabularyRow × Option VocabularyReviewProgress) queueLe where
  total a b := by
    unfold queueLe
    omega

instance : IsTrans (VocabularyRow × Option VocabularyReviewProgress) queueLe where
  trans a b c hab hbc := by
    unfold queueLe at hab hbc ⊢
    omega

/-- The limit clamp of getReviewQueue:
Math.max(1, Math.min(limit, 200)) for an integral, finite limit. -/
def safeLimit (limit : Int) : Int := max 1 (min limit 200)

/-- The SQL result rows of DatabaseManager.getReviewQueue (database.ts
lines 499-538) before the JavaScript post-processing: join, optional due
filter, ORDER BY, LIMIT. -/
def getReviewQueueRows (s : SqliteStore) (now : Int) (limit : Int)
    (onlyDue : Bool) : List (VocabularyRow × Option VocabularyReviewProgress) :=
  let joined := s.vocabulary.map fun v => (v, joinedProgress s v)
  let filtered := if onlyDue then joined.filter (fun vp => isDueRow vp now) else joined
  (filtered.insertionSort queueLe).take (safeLimit limit).toNat

/-- JavaScript truthiness of an optional integer column:
`row.x ? Number(row.x) : undefined` maps both NULL and 0 to undefined. -/
def jsTruthyInt (x : Option Int) : Option Int :=
  match x with
  | some t => if t = 0 then none else some t
  | none => none

/-- Interface VocabularyReviewItem from wordbook.ts: a vocabulary item
joined with its review progress (or the COALESCE defaults). -/
structure VocabularyReviewItem where
  word : String
  translation : Option String := none
  phonetic : Option String := none
  fromLanguage : Option String := none
  toLanguage : Option String := none
  note : Option String := none
  timestamp : Int
  proficiency : Int
  reviewCount : Int
  successCount : Int
  failCount : Int
  lastReviewedAt : Option Int := none
  nextReviewAt : Option Int := none
deriving Repr, DecidableEq

/-- The JavaScript post-processing of one getReviewQueue row: COALESCE
defaults for the counters and truthiness conversion of the optional
timestamps. -/
def postProcessRow (vp : VocabularyRow × Option VocabularyReviewProgress) :
    VocabularyReviewItem :=
  { word := vp.1.word
    translation := vp.1.translation
    phonetic := vp.1.phonetic
    fromLanguage := vp.1.fromLanguage
    toLanguage := vp.1.toLanguage
    note := vp.1.note
    timestamp := vp.1.createdAt
    proficiency := match vp.2 with | some p => p.proficiency | none => 0
    reviewCount := match vp.2 with | some p => p.reviewCount | none => 0
    successCount := match vp.2 with | some p => p.successCount | none => 0
    failCount := match vp.2 with | some p => p.failCount | none => 0
    lastReviewedAt := jsTruthyInt (vp.2.bind fun p => p.lastReviewedAt)
    nextReviewAt := jsTruthyInt (vp.2.bind fun p => p.nextReviewAt) }

/-- DatabaseManager.getReviewQueue with the TypeScript default arguments
(limit = 20, onlyDue = true). -/
def getReviewQueue (s : SqliteStore) (now : Int) (limit : Int := 20)
    (onlyDue : Bool := true) : List VocabularyReviewItem :=
  (getReviewQueueRows s now limit onlyDue).map postProcessRow

/-- Interface VocabularyReviewStatistics from wordbook.ts. -/
structure VocabularyReviewStatistics where
  total : Nat
  due : Nat
  mastered : Nat
deriving Repr, DecidableEq

/-- DatabaseManager.getReviewStatistics (database.ts lines 624-649): the
three COUNT(*) queries — due over the LEFT JOIN with the due filter,
total over `vocabulary`, mastered over `vocabulary_progress` with
proficiency >= 5. -/
def getReviewStatistics (s : SqliteStore) (now : Int) :
    VocabularyReviewStatistics :=
  { total := s.vocabulary.length
    due := ((s.vocabulary.map fun v => (v, joinedProgress s v)).filter
      fun vp => isDueRow vp now).length
    mastered := (s.progress.filter fun p => decide (5 ≤ p.proficiency)).length }

/-- Modelled from the spec (sections 4.4 and 4.5): the effective next
review time of an entry — the progress row's `nextReviewAt` when a
progress row exists, absent otherwise. -/
def specEffectiveNextReviewAt (s : SqliteStore) (v : VocabularyRow) :
    Option Int :=
  (joinedProgress s v).bind fun p => p.nextReviewAt

/-- Modelled from the spec (glossary): a due item is an entry whose
effective next review time is absent or has passed. -/
def specIsDue (s : SqliteStore) (v : VocabularyRow) (now : Int) : Bool :=
  match specEffectiveNextReviewAt s v with
  | none => true
  | some t => decide (t ≤ now)

/-- No progress row lacks its owning vocabulary entry. -/
def NoOrphanProgress (s : SqliteStore) : Prop :=
  (s.progress.all fun p => s.vocabulary.any fun v => decide (v.word = p.word)) = true

/-- The stores reachable from the fresh database through the public
operations of the vocabulary manager. -/
inductive Reachable : SqliteStore → Prop where
  | empty : Reachable emptyStore
  | add {s : SqliteStore} (item : VocabularyInput) (now : Int)
      (h : Reachable s) : Reachable (addVocabulary s item now).2
  | remove {s : SqliteStore} (word : String) (h : Reachable s) :
      Reachable (removeVocabulary s word).2
  | clearAll {s : SqliteStore} (h : Reachable s) :
      Reachable (clearAllVocabulary s).2
  | upsert {s : SqliteStore} (progress : VocabularyReviewProgress)
      (h : Reachable s) : Reachable (upsertReviewProgress s progress).2
  | applyResult {s : SqliteStore} (word : String) (r : ReviewResult)
      (now : Int) (h : Reachable s) :
      Reachable (applyReviewResultOnStore s word r now).2
  | clearProg {s : SqliteStore} (word : Option String) (h : Reachable s) :
      Reachable (clearReviewProgress s word).2

/-- Interface VocabularyItem of the line-delimited file transport
(src/vocabulary/wordbook.ts, file flavour). -/
structure VocabularyItem where
  word : String
  translation : Option String := none
  phonetic : Option String := none
  fromLanguage : Option String := none
  toLanguage : Option String := none
  timestamp : Int
  note : Option String := none
deriving Repr, DecidableEq

/-- JavaScript String.prototype.toLowerCase, character by character. -/
def jsToLower (s : String) : String := String.mk (s.data.map Char.toLower)

/-- JavaScript String.prototype.trim: strip whitespace from both ends. -/
def jsTrim (s : String) : String :=
  String.mk (((s.data.dropWhile Char.isWhitespace).reverse.dropWhile
    Char.isWhitespace).reverse)

/-- JavaScript split of a string on the newline separator. -/
def jsSplitNewline (s : String) : List String :=
  (s.data.splitOn (Char.ofNat 10)).map String.mk

/-- The comparator of the file transport's getVocabularyList:
`(a, b) => b.timestamp - a.timestamp`, i.e. newest first. -/
def byTimestampDesc (a b : VocabularyItem) : Prop := b.timestamp ≤ a.timestamp

instance : DecidableRel byTimestampDesc := fun a b =>
  inferInstanceAs (Decidable (b.timestamp ≤ a.timestamp))

instance : IsTotal VocabularyItem byTimestampDesc where
  total a b := by
    unfold byTimestampDesc
    omega

instance : IsTrans VocabularyItem byTimestampDesc where
  trans a b c hab hbc := by
    unfold byTimestampDesc at hab hbc ⊢
    omega

/-- The file transport's getVocabularyList at item level: the parsed items
sorted by timestamp descending. -/
def fileGetVocabularyList (items : List VocabularyItem) : List VocabularyItem :=
  items.insertionSort byTimestampDesc

/-- The file transport's addVocabulary (wordbook.ts file flavour lines
66-91): reject when a case-insensitive equivalent word exists, otherwise
append the item with timestamp = now. -/
def fileAddVocabulary (items : List VocabularyItem) (item : VocabularyInput)
    (now : Int) : Bool × List VocabularyItem :=
  if (fileGetVocabularyList items).any
      (fun v => decide (jsToLower v.word = jsToLower item.word)) then
    (false, items)
  else
    (true, items ++
      [{ word := item.word
         translation := item.translation
         phonetic := item.phonetic
         fromLanguage := item.fromLanguage
         toLanguage := item.toLanguage
         note := item.note
         timestamp := now }])

/-- The file transport's removeVocabulary (wordbook.ts file flavour lines
128-141): rewrite the file with every item whose lower-cased word differs
from the lower-cased argument. -/
def fileRemoveVocabulary (items : List VocabularyItem) (word : String) :
    Bool × List VocabularyItem :=
  (true, (fileGetVocabularyList items).filter
    fun it => decide (jsToLower it.word ≠ jsToLower word))

/-- The file transport's isVocabularyExists: case-insensitive membership
test. -/
def fileIsVocabularyExists (items : List VocabularyItem) (word : String) : Bool :=
  (fileGetVocabularyList items).any
    fun it => decide (jsToLower it.word = jsToLower word)

/-- The file transport's getVocabularyList (wordbook.ts file flavour lines
96-123) at content level: empty or whitespace-only content gives the empty
list; otherwise the trimmed content is split on newlines, each line is
parsed (JSON.parse modelled as the parameter `parseLine`, `none` standing
for a parse error, which the loop skips), and the result is sorted by
timestamp descending. -/
def getVocabularyListFromContent (parseLine : String → Option VocabularyItem)
    (content : String) : List VocabularyItem :=
  if jsTrim content = "" then []
  else fileGetVocabularyList ((jsSplitNewline (jsTrim content)).filterMap parseLine)

/-- A small concrete store with one vocabulary entry and one progress row
for the same word. -/
def demoStore : SqliteStore :=
  { vocabulary := [{ word := "a", createdAt := 1, updatedAt := 1 }]
    progress := [{ word := "a", proficiency := 1, reviewCount := 1,
                   successCount := 1, failCount := 0,
                   lastReviewedAt := some 5, nextReviewAt := some 6 }] }

/-- The spec's statistics example, taken at time 1000: ten entries, three
of them due, two progress rows at proficiency 5. -/
def exampleStore : SqliteStore :=
  { vocabulary :=
      [{ word := "w1", createdAt := 1, updatedAt := 1 },
       { word := "w2", createdAt := 2, updatedAt := 2 },
       { word := "w3", createdAt := 3, updatedAt := 3 },
       { word := "w4", createdAt := 4, updatedAt := 4 },
       { word := "w5", createdAt := 5, updatedAt := 5 },
       { word := "w6", createdAt := 6, updatedAt := 6 },
       { word := "w7", createdAt := 7, updatedAt := 7 },
       { word := "w8", createdAt := 8, updatedAt := 8 },
       { word := "w9", createdAt := 9, updatedAt := 9 },
       { word := "w10", createdAt := 10, updatedAt := 10 }]
    progress :=
      [{ word := "w1", proficiency := 5, reviewCount := 6, successCount := 6,
         failCount := 0, lastReviewedAt := some 900, nextReviewAt := some 2000 },
       { word := "w2", proficiency := 5, reviewCount := 7, successCount := 6,
         failCount := 1, lastReviewedAt := some 900, nextReviewAt := some 3000 },
       { word := "w3", proficiency := 1, reviewCount := 1, successCount := 1,
         failCount := 0, lastReviewedAt := some 900, nextReviewAt := some 2000 },
       { word := "w4", proficiency := 2, reviewCount := 2, successCount := 2,
         failCount := 0, lastReviewedAt := some 900, nextReviewAt := some 2500 },
       { word := "w5", proficiency := 3, reviewCount := 3, successCount := 3,
         failCount := 0, lastReviewedAt := some 900, nextReviewAt := some 4000 },
       { word := "w6", proficiency := 1, reviewCount := 2, successCount := 1,
         failCount := 1, lastReviewedAt := some 900, nextReviewAt := some 5000 },
       { word := "w7", proficiency := 4, reviewCount := 4, successCount := 4,
         failCount := 0, lastReviewedAt := some 900, nextReviewAt := some 6000 },
       { word := "w8", proficiency := 2, reviewCount := 3, successCount := 2,
         failCount := 1, lastReviewedAt := some 400, nextReviewAt := some 500 },
       { word := "w9", proficiency := 0, reviewCount := 0, successCount := 0,
         failCount := 0, lastReviewedAt := none, nextReviewAt := none }] }

/-- Ladder lookup succeeds on indices 0..5 and agrees with the spec's
ladder. -/
theorem ladderAt_eq_spec (i : Int) (h0 : 0 ≤ i) (h5 : i ≤ 5) :
    ladderAt i = some (specLadderEntry i) := by
  have : i = 0 ∨ i = 1 ∨ i = 2 ∨ i = 3 ∨ i = 4 ∨ i = 5 := by omega
  rcases this with h | h | h | h | h | h <;> subst h <;> decide

/-- One application of a review result, from a state with non-negative
proficiency, succeeds and produces a state satisfying the structural
invariants. -/
theorem applyReviewResult_step (p : VocabularyReviewProgress)
    (r : ReviewResult) (now : Int) (h0 : 0 ≤ p.proficiency) :
    applyReviewResult p r now =
      some { word := p.word
             proficiency := specNextProficiency p.proficiency r
             reviewCount := p.reviewCount + 1
             successCount := p.successCount + (if r = .forget then 0 else 1)
             failCount := p.failCount + (if r = .forget then 1 else 0)
             lastReviewedAt := some now
             nextReviewAt := some (now +
               specLadderEntry (specIntervalIndex (specNextProficiency p.proficiency r) r)) } := by
  have hM : MAX_PROFICIENCY = 5 := by decide
  cases r with
  | remember =>
      have h0' : (0 : Int) ≤ min (p.proficiency + 1) 5 := by omega
      have h5' : min (p.proficiency + 1) 5 ≤ 5 := by omega
      have hidx : min (min (p.proficiency + 1) 5) 5 = min (p.proficiency + 1) 5 := by
        omega
      simp only [applyReviewResult, hM]
      simp only [reduceCtorEq, if_false, hidx, ladderAt_eq_spec _ h0' h5',
        Option.map_some]
      simp [specNextProficiency, specIntervalIndex]
  | hard =>
      have h0' : (0 : Int) ≤ min (p.proficiency + 1) 5 := by omega
      have h5' : min (p.proficiency + 1) 5 ≤ 5 := by omega
      have hidx : min (min (p.proficiency + 1) 5) 5 = min (p.proficiency + 1) 5 := by
        omega
      simp only [applyReviewResult, hM]
      simp only [reduceCtorEq, if_false, hidx, ladderAt_eq_spec _ h0' h5',
        Option.map_some]
      simp [specNextProficiency, specIntervalIndex]
  | forget =>
      have hlad : ladderAt 0 = some (specLadderEntry 0) := by decide
      simp only [applyReviewResult, hM, if_pos rfl, hlad, Option.map_some]
      simp [specNextProficiency, specIntervalIndex]
      exact hlad

/-- C1: applying a review result computes the new state exactly per the
spec's transition rule — proficiency +1 capped at 5 for `remember` and
`hard`, -1 floored at 0 for `forget`; interval index 0 for `forget` and
otherwise the new proficiency; `nextReviewAt` = now + the ladder entry at
that index; counters and `lastReviewedAt` updated; in particular, from
proficiency 3 with `forget` the new proficiency is 2, `nextReviewAt` is
now + 5 minutes, and `failCount` increases by 1. -/
theorem C1_applyReviewResult_matches_spec (p : VocabularyReviewProgress)
    (r : ReviewResult) (now : Int) (h0 : 0 ≤ p.proficiency) :
    applyReviewResult p r now =
      some { word := p.word
             proficiency := specNextProficiency p.proficiency r
             reviewCount := p.reviewCount + 1
             successCount := p.successCount + (if r = .forget then 0 else 1)
             failCount := p.failCount + (if r = .forget then 1 else 0)
             lastReviewedAt := some now
             nextReviewAt := some (now +
               specLadderEntry (specIntervalIndex (specNextProficiency p.proficiency r) r)) }
    ∧ (p.proficiency = 3 →
        ∃ q, applyReviewResult p .forget now = some q ∧
          q.proficiency = 2 ∧
          q.nextReviewAt = some (now + 5 * 60 * 1000) ∧
          q.failCount = p.failCount + 1) := by
  refine ⟨applyReviewResult_step p r now h0, fun h3 => ?_⟩
  refine ⟨_, applyReviewResult_step p .forget now h0, ?_, ?_, ?_⟩
  · simp [specNextProficiency, h3]
  · simp [specNextProficiency, specIntervalIndex, h3, specLadderEntry]
  · simp

/-- Witness for C1 at the spec's concrete example (proficiency 3,
outcome `forget`, now = 1000). -/
theorem C1_applyReviewResult_matches_spec_witness :
    applyReviewResult
        { word := "w", proficiency := 3, reviewCount := 4, successCount := 3,
          failCount := 1, lastReviewedAt := some 7, nextReviewAt := some 9 }
        .forget 1000 =
      some { word := "w"
             proficiency := specNextProficiency 3 .forget
             reviewCount := 5
             successCount := 3 + (if ReviewResult.forget = .forget then 0 else 1)
             failCount := 1 + (if ReviewResult.forget = .forget then 1 else 0)
             lastReviewedAt := some 1000
             nextReviewAt := some (1000 +
               specLadderEntry (specIntervalIndex (specNextProficiency 3 .forget) .forget)) } :=
  (C1_applyReviewResult_matches_spec
    { word := "w", proficiency := 3, reviewCount := 4, successCount := 3,
      failCount := 1, lastReviewedAt := some 7, nextReviewAt := some 9 }
    .forget 1000 (by decide)).1

/-- One application of a review result, from a state with proficiency in
[0, 5], succeeds and yields proficiency in [0, 5] with a ladder-derived
`nextReviewAt`. -/
theorem applyReviewResult_bounds (p : VocabularyReviewProgress)
    (r : ReviewResult) (now : Int) (h0 : 0 ≤ p.proficiency)
    (h5 : p.proficiency ≤ 5) :
    ∃ q, applyReviewResult p r now = some q ∧
      0 ≤ q.proficiency ∧ q.proficiency ≤ 5 ∧ nextReviewDerived q := by
  refine ⟨_, applyReviewResult_step p r now h0, ?_, ?_, ?_⟩
  · cases r <;> simp only [specNextProficiency] <;> omega
  · cases r <;> simp only [specNextProficiency] <;> omega
  · intro t ht
    simp only [Option.mem_def, Option.some.injEq] at ht
    refine ⟨now, Option.mem_def.mpr rfl, ?_⟩
    cases r with
    | remember => right; rw [← ht]; simp [specIntervalIndex]
    | hard => right; rw [← ht]; simp [specIntervalIndex]
    | forget => left; rw [← ht]; simp [specIntervalIndex]

/-- Sequences of review results preserve the proficiency bounds, and any
nonempty sequence leaves a ladder-derived `nextReviewAt`. -/
theorem applyReviewSeq_invariant (seq : List (ReviewResult × Int)) :
    ∀ p : VocabularyReviewProgress, 0 ≤ p.proficiency → p.proficiency ≤ 5 →
      ∃ q, applyReviewSeq p seq = some q ∧ 0 ≤ q.proficiency ∧
        q.proficiency ≤ 5 ∧ (seq = [] → q = p) ∧
        (seq ≠ [] → nextReviewDerived q) := by
  induction seq with
  | nil =>
      intro p h0 h5
      exact ⟨p, rfl, h0, h5, fun _ => rfl, fun h => absurd rfl h⟩
  | cons hd tl ih =>
      obtain ⟨r, n⟩ := hd
      intro p h0 h5
      obtain ⟨q1, hq1, hq10, hq15, hder⟩ := applyReviewResult_bounds p r n h0 h5
      obtain ⟨q, hq, hq0, hq5, hnil, hne⟩ := ih q1 hq10 hq15
      refine ⟨q, ?_, hq0, hq5, fun h => by simp at h, fun _ => ?_⟩
      · simp only [applyReviewSeq, hq1, Option.bind_some]
        exact hq
      · rcases List.eq_nil_or_concat tl with htl | _
        · subst htl
          rw [hnil rfl]
          exact hder
        · exact hne (by rintro rfl; simp_all)

/-- C2: starting from any progress state with proficiency in [0, 5],
applying any sequence of review results keeps the proficiency in [0, 5],
and (for a nonempty sequence) the resulting `nextReviewAt` is the review
time plus a ladder entry picked by the spec's rule, never an arbitrary
value. -/
theorem C2_proficiency_bounds_and_ladder (p : VocabularyReviewProgress)
    (seq : List (ReviewResult × Int)) (h0 : 0 ≤ p.proficiency)
    (h5 : p.proficiency ≤ 5) :
    ∃ q, applyReviewSeq p seq = some q ∧ 0 ≤ q.proficiency ∧
      q.proficiency ≤ 5 ∧ (seq ≠ [] → nextReviewDerived q) := by
  obtain ⟨q, h1, h2, h3, -, h4⟩ := applyReviewSeq_invariant seq p h0 h5
  exact ⟨q, h1, h2, h3, h4⟩

/-- Witness for C2 on a concrete three-step review session from the
default progress. -/
theorem C2_proficiency_bounds_and_ladder_witness :
    ∃ q, applyReviewSeq (getDefaultProgress "w")
        [(.remember, 0), (.hard, 100), (.forget, 200)] = some q ∧
      0 ≤ q.proficiency ∧ q.proficiency ≤ 5 ∧
      ([((.remember : ReviewResult), (0 : Int)), (.hard, 100), (.forget, 200)] ≠ [] →
        nextReviewDerived q) :=
  C2_proficiency_bounds_and_ladder (getDefaultProgress "w")
    [(.remember, 0), (.hard, 100), (.forget, 200)] (by decide) (by decide)

/-- C3: the counter invariant successCount + failCount = reviewCount holds
for the default progress and is preserved by every application of a review
result. -/
theorem C3_counter_invariant :
    (∀ w, (getDefaultProgress w).successCount + (getDefaultProgress w).failCount
        = (getDefaultProgress w).reviewCount)
    ∧ ∀ (p : VocabularyReviewProgress) (r : ReviewResult) (now : Int)
        (q : VocabularyReviewProgress),
        applyReviewResult p r now = some q →
        p.successCount + p.failCount = p.reviewCount →
        q.successCount + q.failCount = q.reviewCount := by
  constructor
  · intro w
    rfl
  · intro p r now q hq hinv
    simp only [applyReviewResult, Option.map_eq_some'] at hq
    obtain ⟨interval, -, hqeq⟩ := hq
    subst hqeq
    cases r <;> simp <;> omega

/-- Witness for C3: one `remember` step from the default progress
preserves the counter invariant. -/
theorem C3_counter_invariant_witness :
    ({ word := "w", proficiency := 1, reviewCount := 1, successCount := 1,
       failCount := 0, lastReviewedAt := some 0, nextReviewAt := some 43200000 }
        : VocabularyReviewProgress).successCount +
      ({ word := "w", proficiency := 1, reviewCount := 1, successCount := 1,
         failCount := 0, lastReviewedAt := some 0, nextReviewAt := some 43200000 }
          : VocabularyReviewProgress).failCount =
      ({ word := "w", proficiency := 1, reviewCount := 1, successCount := 1,
         failCount := 0, lastReviewedAt := some 0, nextReviewAt := some 43200000 }
          : VocabularyReviewProgress).reviewCount :=
  C3_counter_invariant.2 (getDefaultProgress "w") .remember 0
    { word := "w", proficiency := 1, reviewCount := 1, successCount := 1,
      failCount := 0, lastReviewedAt := some 0, nextReviewAt := some 43200000 }
    (by decide) (by decide)

/-- C4 counterexample: in the better-sqlite3 transport, removing the word
hello from an empty store — the word is not present — returns false, not
the success the claim asserts for every transport. -/
theorem C4_remove_nonexistent_counterexample :
    (([] : List VocabularyRow).all fun v => decide (v.word ≠ "hello")) = true
    ∧ (removeVocabularyBetterSqlite3 [] "hello").1 = false := by
  decide

/-- C4 amended: removing a word not present in the store reports success
in the shell transport, whose boolean only signals that the DELETE
statement executed without an I/O error; the better-sqlite3 transport
instead returns `result.changes > 0` and hence reports failure (false)
for a non-existent word, leaving the rows unchanged. -/
theorem C4_remove_nonexistent (s : SqliteStore) (rows : List VocabularyRow)
    (w : String) (h : (rows.all fun v => decide (v.word ≠ w)) = true) :
    (removeVocabulary s w).1 = true
    ∧ removeVocabularyBetterSqlite3 rows w = (false, rows) := by
  refine ⟨rfl, ?_⟩
  have h' := List.all_eq_true.mp h
  have h1 : (rows.filter fun v => decide (v.word = w)) = [] := by
    rw [List.filter_eq_nil_iff]
    intro v hv
    have hne := h' v hv
    simp only [decide_eq_true_eq] at hne ⊢
    exact hne
  have h2 : (rows.filter fun v => decide (v.word ≠ w)) = rows :=
    List.filter_eq_self.mpr h'
  simp only [removeVocabularyBetterSqlite3, h1, h2, List.length_nil]
  rfl

/-- Witness for C4 amended: both transports applied to an empty store. -/
theorem C4_remove_nonexistent_witness :
    (removeVocabulary emptyStore "hello").1 = true
    ∧ removeVocabularyBetterSqlite3 [] "hello" = (false, []) :=
  C4_remove_nonexistent emptyStore [] "hello" (by decide)

/-- C5 counterexample: with the SQL transport, a store holding the word
apple accepts an add of the word Apple — a case-insensitive equivalent —
returning true and mutating the store, because the existence check of the
business layer is the exact-match SELECT of the database layer. -/
theorem C5_add_case_insensitive_counterexample :
    jsToLower "Apple" = jsToLower "apple"
    ∧ (addVocabulary
        { vocabulary := [{ word := "apple", createdAt := 1, updatedAt := 1 }],
          progress := [] } { word := "Apple" } 7).1 = true
    ∧ (addVocabulary
        { vocabulary := [{ word := "apple", createdAt := 1, updatedAt := 1 }],
          progress := [] } { word := "Apple" } 7).2
      ≠ { vocabulary := [{ word := "apple", createdAt := 1, updatedAt := 1 }],
          progress := [] } := by
  decide

/-- C5 amended: in the SQL transport the duplicate check of add is the
exact (case-sensitive) existence test — an exact duplicate is rejected
without mutation, while a word differing only in case passes; in the file
transport the duplicate check is case-insensitive.  In both transports a
word whose duplicate check misses is stored (with created/updated
timestamps equal to now in the SQL transport, the item timestamp in the
file transport) and exists(word) subsequently holds. -/
theorem C5_add_duplicate_policy (s : SqliteStore) (items : List VocabularyItem)
    (item : VocabularyInput) (now : Int) :
    (isVocabularyExists s item.word = true → addVocabulary s item now = (false, s))
    ∧ (isVocabularyExists s item.word = false →
        (addVocabulary s item now).1 = true
        ∧ (∃ v ∈ (addVocabulary s item now).2.vocabulary,
            v.word = item.word ∧ v.createdAt = now ∧ v.updatedAt = now)
        ∧ isVocabularyExists (addVocabulary s item now).2 item.word = true)
    ∧ (fileIsVocabularyExists items item.word = true →
        fileAddVocabulary items item now = (false, items))
    ∧ (fileIsVocabularyExists items item.word = false →
        (fileAddVocabulary items item now).1 = true
        ∧ (fileAddVocabulary items item now).2 = items ++
            [{ word := item.word, translation := item.translation,
               phonetic := item.phonetic, fromLanguage := item.fromLanguage,
               toLanguage := item.toLanguage, note := item.note,
               timestamp := now }]
        ∧ fileIsVocabularyExists (fileAddVocabulary items item now).2 item.word
            = true) := by
  refine ⟨?_, ?_, ?_, ?_⟩
  · intro h
    simp [addVocabulary, h]
  · intro h
    refine ⟨by simp [addVocabulary, h], ?_, ?_⟩
    · refine ⟨{ word := item.word, translation := jsTruthyStr item.translation,
                phonetic := jsTruthyStr item.phonetic,
                fromLanguage := jsTruthyStr item.fromLanguage,
                toLanguage := jsTruthyStr item.toLanguage,
                note := jsTruthyStr item.note,
                createdAt := now, updatedAt := now }, ?_, rfl, rfl, rfl⟩
      simp only [addVocabulary, h, Bool.false_eq_true, if_false, dbAddVocabulary]
      exact List.mem_append_right _ (List.mem_singleton.mpr rfl)
    · simp only [addVocabulary, h, Bool.false_eq_true, if_false, dbAddVocabulary]
      rw [isVocabularyExists, List.any_eq_true]
      exact ⟨_, List.mem_append_right _ (List.mem_singleton.mpr rfl), by simp⟩
  · intro h
    unfold fileIsVocabularyExists at h
    simp [fileAddVocabulary, h]
  · intro h
    unfold fileIsVocabularyExists at h
    refine ⟨by simp [fileAddVocabulary, h], by simp [fileAddVocabulary, h], ?_⟩
    unfold fileIsVocabularyExists
    rw [List.any_eq_true]
    refine ⟨{ word := item.word, translation := item.translation,
              phonetic := item.phonetic, fromLanguage := item.fromLanguage,
              toLanguage := item.toLanguage, note := item.note,
              timestamp := now }, ?_, by simp⟩
    unfold fileGetVocabularyList
    rw [(List.perm_insertionSort byTimestampDesc _).mem_iff]
    simp [fileAddVocabulary, h]

/-- Witness for C5 amended: an exact duplicate is rejected by the SQL
transport, and a duplicate differing only in case is rejected by the file
transport. -/
theorem C5_add_duplicate_policy_witness :
    addVocabulary demoStore { word := "a" } 7 = (false, demoStore)
    ∧ fileAddVocabulary [{ word := "A", timestamp := 1 }] { word := "a" } 7
        = (false, [{ word := "A", timestamp := 1 }]) :=
  ⟨(C5_add_duplicate_policy demoStore [] { word := "a" } 7).1 (by decide),
   (C5_add_duplicate_policy demoStore [{ word := "A", timestamp := 1 }]
      { word := "a" } 7).2.2.1 (by decide)⟩

/-- C6 counterexample: in the file transport, removing the word apple
also deletes the stored entry Apple, which differs from the argument only
in letter case — the claim's exact-match frame condition fails. -/
theorem C6_remove_exact_match_counterexample :
    ({ word := "Apple", timestamp := 1 } : VocabularyItem)
        ∈ [({ word := "Apple", timestamp := 1 } : VocabularyItem),
           { word := "banana", timestamp := 2 }]
    ∧ ("Apple" : String) ≠ "apple"
    ∧ ({ word := "Apple", timestamp := 1 } : VocabularyItem)
        ∉ (fileRemoveVocabulary
            [{ word := "Apple", timestamp := 1 },
             { word := "banana", timestamp := 2 }] "apple").2 := by
  decide

/-- C6 amended: the SQL transports delete exactly the rows whose word is
an exact (case-sensitive) match — every other row, including ones
differing only in case, survives; the file transport instead removes
every entry whose word matches case-insensitively, keeping exactly the
entries whose lower-cased word differs. -/
theorem C6_remove_frame (s : SqliteStore) (rows : List VocabularyRow)
    (items : List VocabularyItem) (w : String) :
    (removeVocabulary s w).2.vocabulary
        = s.vocabulary.filter (fun v => decide (v.word ≠ w))
    ∧ (∀ v ∈ s.vocabulary, v.word ≠ w → v ∈ (removeVocabulary s w).2.vocabulary)
    ∧ (removeVocabularyBetterSqlite3 rows w).2
        = rows.filter (fun v => decide (v.word ≠ w))
    ∧ (fileRemoveVocabulary items w).2
        = (fileGetVocabularyList items).filter
            (fun it => decide (jsToLower it.word ≠ jsToLower w))
    ∧ (∀ it ∈ items, jsToLower it.word ≠ jsToLower w →
        it ∈ (fileRemoveVocabulary items w).2) := by
  refine ⟨rfl, ?_, rfl, rfl, ?_⟩
  · intro v hv hne
    simp only [removeVocabulary]
    exact List.mem_filter.mpr ⟨hv, by simpa using hne⟩
  · intro it hit hne
    simp only [fileRemoveVocabulary]
    refine List.mem_filter.mpr ⟨?_, by simpa using hne⟩
    unfold fileGetVocabularyList
    rw [(List.perm_insertionSort byTimestampDesc _).mem_iff]
    exact hit

/-- Witness for C6 amended: the entry banana, which does not match the
removed word apple even case-insensitively, survives the file-transport
removal. -/
theorem C6_remove_frame_witness :
    ({ word := "banana", timestamp := 2 } : VocabularyItem)
      ∈ (fileRemoveVocabulary
          [{ word := "Apple", timestamp := 1 },
           { word := "banana", timestamp := 2 }] "apple").2 :=
  (C6_remove_frame emptyStore []
      [{ word := "Apple", timestamp := 1 }, { word := "banana", timestamp := 2 }]
      "apple").2.2.2.2
    { word := "banana", timestamp := 2 } (by decide) (by decide)

/-- Every row of the due-filtered review queue is the join of a stored
vocabulary row with its progress and passes the due filter. -/
theorem mem_getReviewQueueRows_due {s : SqliteStore} {now limit : Int}
    {vp : VocabularyRow × Option VocabularyReviewProgress}
    (h : vp ∈ getReviewQueueRows s now limit true) :
    (∃ v ∈ s.vocabulary, vp = (v, joinedProgress s v))
      ∧ isDueRow vp now = true := by
  unfold getReviewQueueRows at h
  have h1 := (List.take_sublist _ _).subset h
  rw [(List.perm_insertionSort queueLe _).mem_iff] at h1
  simp only [if_true] at h1
  obtain ⟨h2, h3⟩ := List.mem_filter.mp h1
  obtain ⟨v, hv, hveq⟩ := List.mem_map.mp h2
  exact ⟨⟨v, hv, hveq.symm⟩, h3⟩

/-- C7: the due review queue returns at most the clamped limit of rows
(and the absent-limit call equals the call with limit 20); every returned
item's next review time, when present, has passed; the SQL rows are
ordered ascending by the coalesced review time with ties broken by
created_at descending; and an entry without a progress row appears with
proficiency 0, all counters 0 and no next review time. -/
theorem C7_getReviewQueue_spec (s : SqliteStore) (now limit : Int) :
    (getReviewQueue s now limit true).length ≤ (max 1 (min limit 200)).toNat
    ∧ (∀ item ∈ getReviewQueue s now limit true, ∀ t ∈ item.nextReviewAt, t ≤ now)
    ∧ List.Sorted queueLe (getReviewQueueRows s now limit true)
    ∧ (∀ item ∈ getReviewQueue s now limit true,
        getReviewProgress s item.word = none →
        item.proficiency = 0 ∧ item.reviewCount = 0 ∧ item.successCount = 0
          ∧ item.failCount = 0 ∧ item.nextReviewAt = none)
    ∧ getReviewQueue s now = getReviewQueue s now 20 true := by
  refine ⟨?_, ?_, ?_, ?_, rfl⟩
  · unfold getReviewQueue getReviewQueueRows safeLimit
    rw [List.length_map]
    exact List.length_take_le _ _
  · intro item hitem t ht
    obtain ⟨vp, hvp, rfl⟩ := List.mem_map.mp hitem
    obtain ⟨⟨v, hv, rfl⟩, hdue⟩ := mem_getReviewQueueRows_due hvp
    cases hjp : joinedProgress s v with
    | none =>
        simp [postProcessRow, hjp, jsTruthyInt] at ht
    | some p =>
        cases hnp : p.nextReviewAt with
        | none => simp [postProcessRow, hjp, hnp, jsTruthyInt] at ht
        | some u =>
            have hu : u ≤ now := by
              simp [isDueRow, hjp, hnp] at hdue
              exact hdue
            by_cases h0 : u = 0
            · simp [postProcessRow, hjp, hnp, jsTruthyInt, h0] at ht
            · simp [postProcessRow, hjp, hnp, jsTruthyInt, h0] at ht
              omega
  · unfold getReviewQueueRows
    exact List.Pairwise.sublist (List.take_sublist _ _)
      (List.sorted_insertionSort queueLe _)
  · intro item hitem hnone
    obtain ⟨vp, hvp, rfl⟩ := List.mem_map.mp hitem
    obtain ⟨⟨v, hv, rfl⟩, -⟩ := mem_getReviewQueueRows_due hvp
    have hjp : joinedProgress s v = none := by
      simpa [getReviewProgress, joinedProgress, postProcessRow] using hnone
    simp [postProcessRow, hjp, jsTruthyInt]

/-- Witness for C7 at the example store: the queue of at most 5 due items
at time 1000 respects the clamped limit. -/
theorem C7_getReviewQueue_spec_witness :
    (getReviewQueue exampleStore 1000 5 true).length
      ≤ (max 1 (min (5 : Int) 200)).toNat :=
  (C7_getReviewQueue_spec exampleStore 1000 5).1

/-- The no-orphan invariant, spelled with quantifiers. -/
theorem noOrphan_iff (s : SqliteStore) :
    NoOrphanProgress s ↔ ∀ p ∈ s.progress, ∃ v ∈ s.vocabulary, v.word = p.word := by
  unfold NoOrphanProgress
  rw [List.all_eq_true]
  constructor
  · intro h p hp
    obtain ⟨v, hv, hvw⟩ := List.any_eq_true.mp (h p hp)
    exact ⟨v, hv, of_decide_eq_true hvw⟩
  · intro h p hp
    obtain ⟨v, hv, hvw⟩ := h p hp
    exact List.any_eq_true.mpr ⟨v, hv, decide_eq_true hvw⟩

/-- addVocabulary preserves the no-orphan invariant. -/
theorem noOrphan_add (s : SqliteStore) (item : VocabularyInput) (now : Int)
    (h : NoOrphanProgress s) : NoOrphanProgress (addVocabulary s item now).2 := by
  rw [noOrphan_iff] at h ⊢
  intro p hp
  unfold addVocabulary at hp ⊢
  cases hex : isVocabularyExists s item.word with
  | true =>
      simp only [hex, if_true] at hp ⊢
      exact h p hp
  | false =>
      simp only [hex, Bool.false_eq_true, if_false, dbAddVocabulary] at hp ⊢
      obtain ⟨v, hv, hvw⟩ := h p hp
      by_cases hvi : v.word = item.word
      · exact ⟨_, List.mem_append_right _ (List.mem_singleton.mpr rfl),
          by rw [← hvi, hvw]⟩
      · exact ⟨v, List.mem_append_left _
          (List.mem_filter.mpr ⟨hv, decide_eq_true hvi⟩), hvw⟩

/-- removeVocabulary preserves the no-orphan invariant. -/
theorem noOrphan_remove (s : SqliteStore) (w : String)
    (h : NoOrphanProgress s) : NoOrphanProgress (removeVocabulary s w).2 := by
  rw [noOrphan_iff] at h ⊢
  intro p hp
  simp only [removeVocabulary] at hp ⊢
  obtain ⟨hp', hkeep⟩ := List.mem_filter.mp hp
  obtain ⟨v, hv, hvw⟩ := h p hp'
  have hvne : v.word ≠ w := by
    intro heq
    have hvdel : v ∈ s.vocabulary.filter (fun u => decide (u.word = w)) :=
      List.mem_filter.mpr ⟨hv, decide_eq_true heq⟩
    have hne := List.all_eq_true.mp hkeep v hvdel
    simp only [decide_eq_true_eq] at hne
    exact hne hvw
  exact ⟨v, List.mem_filter.mpr ⟨hv, decide_eq_true hvne⟩, hvw⟩

/-- clearAllVocabulary preserves the no-orphan invariant (it leaves no
progress row of any stored word behind). -/
theorem noOrphan_clearAll (s : SqliteStore)
    (h : NoOrphanProgress s) : NoOrphanProgress (clearAllVocabulary s).2 := by
  rw [noOrphan_iff] at h ⊢
  intro p hp
  simp only [clearAllVocabulary] at hp
  obtain ⟨hp', hkeep⟩ := List.mem_filter.mp hp
  obtain ⟨v, hv, hvw⟩ := h p hp'
  have hne := List.all_eq_true.mp hkeep v hv
  simp only [decide_eq_true_eq] at hne
  exact absurd hvw hne

/-- upsertReviewProgress preserves the no-orphan invariant (the foreign
key rejects a progress row without its vocabulary entry). -/
theorem noOrphan_upsert (s : SqliteStore) (q : VocabularyReviewProgress)
    (h : NoOrphanProgress s) : NoOrphanProgress (upsertReviewProgress s q).2 := by
  rw [noOrphan_iff] at h ⊢
  intro p hp
  unfold upsertReviewProgress at hp ⊢
  cases hex : s.vocabulary.any fun v => decide (v.word = q.word) with
  | false =>
      simp only [hex, Bool.false_eq_true, if_false] at hp ⊢
      exact h p hp
  | true =>
      simp only [hex, if_true] at hp ⊢
      rcases List.mem_append.mp hp with hmem | hmem
      · exact h p (List.mem_filter.mp hmem).1
      · obtain ⟨v, hv, hvw⟩ := List.any_eq_true.mp hex
        rw [List.mem_singleton.mp hmem]
        exact ⟨v, hv, of_decide_eq_true hvw⟩

/-- applyReviewResult at store level preserves the no-orphan invariant. -/
theorem noOrphan_applyResult (s : SqliteStore) (w : String) (r : ReviewResult)
    (now : Int) (h : NoOrphanProgress s) :
    NoOrphanProgress (applyReviewResultOnStore s w r now).2 := by
  unfold applyReviewResultOnStore
  cases happ : applyReviewResult ((getReviewProgress s w).getD (getDefaultProgress w)) r now with
  | none =>
      simp only [happ]
      exact h
  | some updated =>
      simp only [happ]
      exact noOrphan_upsert s updated h

/-- clearReviewProgress preserves the no-orphan invariant. -/
theorem noOrphan_clearProgress (s : SqliteStore) (w : Option String)
    (h : NoOrphanProgress s) : NoOrphanProgress (clearReviewProgress s w).2 := by
  rw [noOrphan_iff] at h ⊢
  intro p hp
  cases w with
  | none => simp [clearReviewProgress] at hp
  | some x =>
      simp only [clearReviewProgress] at hp
      exact h p (List.mem_filter.mp hp).1

/-- Every store reachable through the public operations satisfies the
no-orphan invariant. -/
theorem reachable_noOrphan (s : SqliteStore) (h : Reachable s) :
    NoOrphanProgress s := by
  induction h with
  | empty => rfl
  | add item now h ih => exact noOrphan_add _ item now ih
  | remove word h ih => exact noOrphan_remove _ word ih
  | clearAll h ih => exact noOrphan_clearAll _ ih
  | upsert progress h ih => exact noOrphan_upsert _ progress ih
  | applyResult word r now h ih => exact noOrphan_applyResult _ word r now ih
  | clearProg word h ih => exact noOrphan_clearProgress _ word ih

/-- C8: deleting a vocabulary entry — by removeVocabulary or by
clearAllVocabulary — also deletes its progress row, so a progress query
for the word afterwards returns absent; and no store reachable through
the public operations contains a progress row without its owning
vocabulary entry. -/
theorem C8_cascade_delete (s : SqliteStore) (w : String) :
    ((∃ v ∈ s.vocabulary, v.word = w) →
      getReviewProgress (removeVocabulary s w).2 w = none)
    ∧ ((∃ v ∈ s.vocabulary, v.word = w) →
      getReviewProgress (clearAllVocabulary s).2 w = none)
    ∧ (∀ t : SqliteStore, Reachable t → NoOrphanProgress t) := by
  refine ⟨?_, ?_, fun t ht => reachable_noOrphan t ht⟩
  · rintro ⟨v0, hv0, hv0w⟩
    rw [getReviewProgress, List.find?_eq_none]
    intro p hp hpw
    simp only [removeVocabulary] at hp
    obtain ⟨-, hkeep⟩ := List.mem_filter.mp hp
    have hv0del : v0 ∈ s.vocabulary.filter (fun u => decide (u.word = w)) :=
      List.mem_filter.mpr ⟨hv0, decide_eq_true hv0w⟩
    have hne := List.all_eq_true.mp hkeep v0 hv0del
    simp only [decide_eq_true_eq] at hne hpw
    exact hne (by rw [hv0w, hpw])
  · rintro ⟨v0, hv0, hv0w⟩
    rw [getReviewProgress, List.find?_eq_none]
    intro p hp hpw
    simp only [clearAllVocabulary] at hp
    obtain ⟨-, hkeep⟩ := List.mem_filter.mp hp
    have hne := List.all_eq_true.mp hkeep v0 hv0
    simp only [decide_eq_true_eq] at hne hpw
    exact hne (by rw [hv0w, hpw])

/-- Witness for C8 at a concrete store holding the word a with a progress
row: both deletion paths leave no queryable progress, and the fresh store
is orphan-free. -/
theorem C8_cascade_delete_witness :
    getReviewProgress (removeVocabulary demoStore "a").2 "a" = none
    ∧ getReviewProgress (clearAllVocabulary demoStore).2 "a" = none
    ∧ NoOrphanProgress emptyStore :=
  ⟨(C8_cascade_delete demoStore "a").1 (by decide),
   (C8_cascade_delete demoStore "a").2.1 (by decide),
   (C8_cascade_delete demoStore "a").2.2 emptyStore Reachable.empty⟩

/-- The due test of one joined row equals the spec's due test on the
entry. -/
theorem isDueRow_eq_specIsDue (s : SqliteStore) (v : VocabularyRow) (now : Int) :
    isDueRow (v, joinedProgress s v) now = specIsDue s v now := by
  unfold isDueRow specIsDue specEffectiveNextReviewAt
  cases joinedProgress s v with
  | none => rfl
  | some p =>
      cases hn : p.nextReviewAt with
      | none => simp [hn]
      | some t => simp [hn]

/-- C9: statistics returns the number of entries as total, the number of
entries whose effective next review time is absent or has passed as due,
and the number of progress rows at proficiency at least 5 as mastered;
on the example store with 10 entries, 3 of them due at time 1000 and 2
progress rows at proficiency 5, it returns exactly those counts. -/
theorem C9_statistics_spec (s : SqliteStore) (now : Int) :
    (getReviewStatistics s now).total = s.vocabulary.length
    ∧ (getReviewStatistics s now).due
        = (s.vocabulary.filter fun v => specIsDue s v now).length
    ∧ (getReviewStatistics s now).mastered
        = (s.progress.filter fun p => decide (p.proficiency ≥ 5)).length
    ∧ getReviewStatistics exampleStore 1000
        = { total := 10, due := 3, mastered := 2 } := by
  refine ⟨rfl, ?_, rfl, by decide⟩
  have hdue : (getReviewStatistics s now).due
      = ((s.vocabulary.map fun v => (v, joinedProgress s v)).filter
          fun vp => isDueRow vp now).length := rfl
  rw [hdue, List.filter_map, List.length_map]
  congr 1
  apply List.filter_congr
  intro v hv
  exact isDueRow_eq_specIsDue s v now

/-- C10: the file transport's list query returns exactly the items parsed
from the lines that parse, sorted by timestamp descending, silently
skipping every malformed line; empty or whitespace-only content yields
the empty list. -/
theorem C10_getVocabularyList_parses_valid_lines
    (parseLine : String → Option VocabularyItem) (content : String) :
    (jsTrim content = "" → getVocabularyListFromContent parseLine content = [])
    ∧ (jsTrim content ≠ "" →
        (getVocabularyListFromContent parseLine content).Perm
          ((jsSplitNewline (jsTrim content)).filterMap parseLine))
    ∧ List.Sorted byTimestampDesc (getVocabularyListFromContent parseLine content) := by
  refine ⟨?_, ?_, ?_⟩
  · intro h
    unfold getVocabularyListFromContent
    rw [if_pos h]
  · intro h
    unfold getVocabularyListFromContent fileGetVocabularyList
    rw [if_neg h]
    exact List.perm_insertionSort _ _
  · unfold getVocabularyListFromContent fileGetVocabularyList
    by_cases h : jsTrim content = ""
    · rw [if_pos h]
      exact List.sorted_nil
    · rw [if_neg h]
      exact List.sorted_insertionSort byTimestampDesc _

/-- Witness for C10: content with one valid and one malformed line yields
exactly the item of the valid line. -/
theorem C10_getVocabularyList_parses_valid_lines_witness :
    (getVocabularyListFromContent
        (fun l => if l = "a" then some { word := "a", timestamp := 1 } else none)
        "a\nbad").Perm
      ((jsSplitNewline (jsTrim "a\nbad")).filterMap
        (fun l => if l = "a" then some { word := "a", timestamp := 1 } else none)) :=
  (C10_getVocabularyList_parses_valid_lines
      (fun l => if l = "a" then some { word := "a", timestamp := 1 } else none)
      "a\nbad").2.1 (by decide)

end Easydict
